import Mathlib

/-!
# Verification of the principal-view panels configuration engine

Shallow embedding of the configuration reconciliation, discovery and parsing
logic of the `industry-themed-principal-view-panels` repository:

* `applyChangesToCanvas` and `handleToCanvasSide`
  (src/panels/visual-validation/ConfigLoader.ts, canvas reconciler),
* `applyChangesToConfig` (src/panels/VisualValidationGraphPanel.tsx,
  path-based reconciler),
* `ConfigLoader.parseCanvas` / `ConfigLoader.findConfigs`,
* `TraceLoader.parseTraceCanvas` / `TraceLoader.findTraceFiles`.

Conventions of the embedding:

* JavaScript objects become structures; a property that may be absent is an
  `Option` field (`none` models an absent/undefined property).
* JS numbers are modelled as rationals (`ℚ`); `Math.round` is `jsRound`.
* `JSON.parse(JSON.stringify(x))` produces a structurally equal value, so the
  deep-copy step is the identity at value level; mutation of the copy is
  modelled by explicit state passing.
* `Date.now()` is modelled by an oracle `now : Nat → Nat` giving the value
  returned by the i-th call inside one reconciliation run.
* JS string-keyed records whose key order is irrelevant to the code under
  study (`nodeTypes`) are modelled as functions `String → Option _`.
-/

namespace PrincipalView

/-- The canvas side vocabulary `top | right | bottom | left`. -/
inductive Side where
  | top
  | right
  | bottom
  | left
deriving DecidableEq, Repr

/-- `display` object of a document (`display.layout`). -/
structure DisplayCfg where
  layout : Option String
deriving DecidableEq, Repr

/-- The `pv` metadata object of a canvas document (only the fields the
reconciler can observe are modelled; the reconciler never touches it). -/
structure CanvasPV where
  display : Option DisplayCfg
deriving DecidableEq, Repr

/-- The `pv` extension object of a canvas node. -/
structure NodePV where
  icon : Option String
deriving DecidableEq, Repr

/-- The `pv` extension object of a canvas edge. -/
structure EdgePV where
  edgeType : Option String
deriving DecidableEq, Repr

/-- A canvas node (`id`, geometry, optional `text`, optional `pv`). -/
structure CanvasNode where
  id : String
  x : ℚ
  y : ℚ
  width : ℚ
  height : ℚ
  text : Option String
  pv : Option NodePV
deriving DecidableEq, Repr

/-- A canvas edge. -/
structure CanvasEdge where
  id : String
  fromNode : String
  toNode : String
  fromSide : Option Side
  toSide : Option Side
  pv : Option EdgePV
deriving DecidableEq, Repr

/-- An `ExtendedCanvas` document: `nodes` and `edges` arrays are optional in
the JSONCanvas shape (the code guards every access with `?.` or truthiness
checks), plus the `pv` metadata object. -/
structure Canvas where
  nodes : Option (List CanvasNode)
  edges : Option (List CanvasEdge)
  pv : Option CanvasPV
deriving DecidableEq, Repr

/-- A position `{x, y}` carried by a pending position change. -/
structure Position where
  x : ℚ
  y : ℚ
deriving DecidableEq, Repr

/-- Dimensions `{width, height}` carried by a pending dimension change. -/
structure Dimensions where
  width : ℚ
  height : ℚ
deriving DecidableEq, Repr

/-- `positionChanges[]` entry `{nodeId, position}`. -/
structure PositionChange where
  nodeId : String
  position : Position
deriving DecidableEq, Repr

/-- `dimensionChanges[]` entry `{nodeId, dimensions}`. -/
structure DimensionChange where
  nodeId : String
  dimensions : Dimensions
deriving DecidableEq, Repr

/-- `nodeUpdates[].updates.data` (`icon`, `label`). -/
structure DataUpdate where
  icon : Option String
  label : Option String
deriving DecidableEq, Repr

/-- `nodeUpdates[].updates` (`type?`, `data?`). -/
structure NodeUpdateFields where
  type : Option String
  data : Option DataUpdate
deriving DecidableEq, Repr

/-- `nodeUpdates[]` entry `{nodeId, updates}`. -/
structure NodeUpdate where
  nodeId : String
  updates : NodeUpdateFields
deriving DecidableEq, Repr

/-- `createdEdges[]` entry `{from, to, type, sourceHandle?, targetHandle?}`.
`from` is a Lean keyword, hence the field names `from_` / `to_`. -/
structure CreatedEdge where
  from_ : String
  to_ : String
  type : String
  sourceHandle : Option String
  targetHandle : Option String
deriving DecidableEq, Repr

/-- `deletedEdges[]` entry `{from, to, type}`. -/
structure DeletedEdge where
  from_ : String
  to_ : String
  type : String
deriving DecidableEq, Repr

/-- The `PendingChanges` batch produced by the graph renderer. -/
structure PendingChanges where
  positionChanges : List PositionChange
  dimensionChanges : List DimensionChange
  nodeUpdates : List NodeUpdate
  deletedNodeIds : List String
  createdEdges : List CreatedEdge
  deletedEdges : List DeletedEdge
deriving DecidableEq, Repr

/-- `str.endsWith(post)`, computed structurally on the character lists. -/
def strEndsWith (s post : String) : Bool :=
  decide (post.data.length ≤ s.data.length) &&
  decide (s.data.drop (s.data.length - post.data.length) = post.data)

/-- `str.startsWith(pre)`, computed structurally on the character lists. -/
def strStartsWith (s pre : String) : Bool :=
  decide (s.data.take pre.data.length = pre.data)

/-- Drop the last `n` characters of a string. -/
def strDropRight (s : String) (n : Nat) : String :=
  String.mk (s.data.take (s.data.length - n))

/-- JavaScript `Math.round`: half-up rounding, `⌊q + 1/2⌋`. -/
def jsRound (q : ℚ) : Int :=
  Rat.floor (q + 1 / 2)

/-- Replace the first element satisfying `p` by its image under `f`.  Models
`const x = arr.find(p)` followed by in-place mutation of the found element. -/
def updateFirst {α : Type} (p : α → Bool) (f : α → α) : List α → List α
  | [] => []
  | x :: xs => if p x then f x :: xs else x :: updateFirst p f xs

/-- `handleToCanvasSide` (ConfigLoader.ts): convert a React Flow handle id
back to a canvas side by stripping the `-out` suffix of source handles; an
absent or unrecognized handle maps to `undefined`. -/
def stripOutSuffix (s : String) : String :=
  if strEndsWith s "-out" then strDropRight s 4 else s

/-- `handleToCanvasSide(handle?: string)`: `!handle` is true for `undefined`
and for the empty string (JS falsiness). -/
def handleToCanvasSide : Option String → Option Side
  | none => none
  | some handle =>
    if handle = "" then none
    else
      let side := stripOutSuffix handle
      if side = "top" then some Side.top
      else if side = "right" then some Side.right
      else if side = "bottom" then some Side.bottom
      else if side = "left" then some Side.left
      else none

/-- One iteration of the position-changes loop of `applyChangesToCanvas`:
find the node by id and set its rounded coordinates. -/
def applyPositionChange (nodes : Option (List CanvasNode)) (pc : PositionChange) :
    Option (List CanvasNode) :=
  nodes.map (updateFirst (fun n => n.id == pc.nodeId)
    (fun n => { n with x := (jsRound pc.position.x : ℚ), y := (jsRound pc.position.y : ℚ) }))

/-- One iteration of the dimension-changes loop of `applyChangesToCanvas`. -/
def applyDimensionChange (nodes : Option (List CanvasNode)) (dc : DimensionChange) :
    Option (List CanvasNode) :=
  nodes.map (updateFirst (fun n => n.id == dc.nodeId)
    (fun n => { n with width := dc.dimensions.width, height := dc.dimensions.height }))

/-- The rename guard `updates.type && updates.type !== nodeId` of both
reconcilers (an empty string is falsy in JS). -/
def renameTarget (u : NodeUpdate) : Option String :=
  match u.updates.type with
  | some t => if t ≠ "" ∧ t ≠ u.nodeId then some t else none
  | none => none

/-- The `updates.data` handling of `applyChangesToCanvas`: set `pv.icon` when
`updates.data.icon` is truthy and the node has a `pv` object; set `text` when
`updates.data.label !== undefined` and the node has a `text` property. -/
def applyDataUpdate (u : NodeUpdate) (n : CanvasNode) : CanvasNode :=
  match u.updates.data with
  | none => n
  | some d =>
    let n1 :=
      match d.icon, n.pv with
      | some s, some p => if s ≠ "" then { n with pv := some { p with icon := some s } } else n
      | _, _ => n
    match d.label with
    | some s => if n1.text.isSome then { n1 with text := some s } else n1
    | none => n1

/-- One iteration of the node-updates loop of `applyChangesToCanvas`: find the
node; on a rename set its `id` and rewrite every edge referencing the old id;
then apply the data updates to the same node. -/
def applyNodeUpdate (st : Option (List CanvasNode) × Option (List CanvasEdge))
    (u : NodeUpdate) : Option (List CanvasNode) × Option (List CanvasEdge) :=
  let nodes := st.1
  let edges := st.2
  match (nodes.getD []).find? (fun n => n.id == u.nodeId) with
  | none => (nodes, edges)
  | some _ =>
    match renameTarget u with
    | some t =>
      (nodes.map (updateFirst (fun n => n.id == u.nodeId)
          (fun n => applyDataUpdate u { n with id := t })),
       edges.map (List.map (fun e =>
         { e with
           fromNode := if e.fromNode == u.nodeId then t else e.fromNode,
           toNode := if e.toNode == u.nodeId then t else e.toNode })))
    | none =>
      (nodes.map (updateFirst (fun n => n.id == u.nodeId) (applyDataUpdate u)), edges)

/-- The node-updates loop of `applyChangesToCanvas`. -/
def applyNodeUpdates (st : Option (List CanvasNode) × Option (List CanvasEdge))
    (us : List NodeUpdate) : Option (List CanvasNode) × Option (List CanvasEdge) :=
  us.foldl applyNodeUpdate st

/-- One iteration of the node-deletions loop of `applyChangesToCanvas`: drop
the node and every edge touching it. -/
def applyNodeDeletion (st : Option (List CanvasNode) × Option (List CanvasEdge))
    (nodeId : String) : Option (List CanvasNode) × Option (List CanvasEdge) :=
  (st.1.map (List.filter (fun n => n.id != nodeId)),
   st.2.map (List.filter (fun e => e.fromNode != nodeId && e.toNode != nodeId)))

/-- The node-deletions loop of `applyChangesToCanvas`. -/
def applyNodeDeletions (st : Option (List CanvasNode) × Option (List CanvasEdge))
    (ids : List String) : Option (List CanvasNode) × Option (List CanvasEdge) :=
  ids.foldl applyNodeDeletion st

/-- `e.pv?.edgeType` of a canvas edge. -/
def edgeTypeOf (e : CanvasEdge) : Option String :=
  e.pv.bind (fun p => p.edgeType)

/-- The edge-matching test `e.fromNode === from && e.toNode === to &&
e.pv?.edgeType === type` of the edge-deletions loop. -/
def edgeMatches (f t v : String) (e : CanvasEdge) : Bool :=
  e.fromNode == f && e.toNode == t && edgeTypeOf e == some v

/-- One iteration of the edge-deletions loop of `applyChangesToCanvas`:
remove every edge matching the `(from, to, type)` triple. -/
def applyEdgeDeletion (edges : Option (List CanvasEdge)) (d : DeletedEdge) :
    Option (List CanvasEdge) :=
  edges.map (List.filter (fun e => !(edgeMatches d.from_ d.to_ d.type e)))

/-- The edge-deletions loop of `applyChangesToCanvas`. -/
def applyEdgeDeletions (edges : Option (List CanvasEdge)) (ds : List DeletedEdge) :
    Option (List CanvasEdge) :=
  ds.foldl applyEdgeDeletion edges

/-- The edge pushed by the edge-creations loop of `applyChangesToCanvas`,
where `t` is the value of the `Date.now()` call of that iteration:
`edge-${from}-${to}-${Date.now()}`. -/
def mkCreatedEdge (t : Nat) (ce : CreatedEdge) : CanvasEdge :=
  { id := "edge-" ++ ce.from_ ++ "-" ++ ce.to_ ++ "-" ++ toString t
    fromNode := ce.from_
    toNode := ce.to_
    fromSide := handleToCanvasSide ce.sourceHandle
    toSide := handleToCanvasSide ce.targetHandle
    pv := some { edgeType := some ce.type } }

/-- The edge-creations loop of `applyChangesToCanvas`: initialize `edges` to
`[]` when absent and push a new edge for every entry, unconditionally.  `i`
counts the `Date.now()` calls already made. -/
def applyEdgeCreations (now : Nat → Nat) (i : Nat) (edges : Option (List CanvasEdge)) :
    List CreatedEdge → Option (List CanvasEdge)
  | [] => edges
  | ce :: rest =>
    applyEdgeCreations now (i + 1) (some (edges.getD [] ++ [mkCreatedEdge (now i) ce])) rest

/-- `applyChangesToCanvas(canvas, changes)` (ConfigLoader.ts, lines
1385–1478).  The function first deep-copies the document
(`JSON.parse(JSON.stringify(canvas))`, the identity at value level) and then
applies, in order: position changes, dimension changes, node updates, node
deletions, edge deletions, edge creations.  It assigns only the `nodes` and
`edges` properties of the copy. -/
def applyChangesToCanvas (now : Nat → Nat) (canvas : Canvas) (changes : PendingChanges) :
    Canvas :=
  let nodes1 := changes.positionChanges.foldl applyPositionChange canvas.nodes
  let nodes2 := changes.dimensionChanges.foldl applyDimensionChange nodes1
  let st3 := applyNodeUpdates (nodes2, canvas.edges) changes.nodeUpdates
  let st4 := applyNodeDeletions st3 changes.deletedNodeIds
  let edges5 := applyEdgeDeletions st4.2 changes.deletedEdges
  let edges6 := applyEdgeCreations now 0 edges5 changes.createdEdges
  { canvas with nodes := st4.1, edges := edges6 }

/-- A node-type entry of a path-based configuration (`nodeTypes[id]`); only
the properties the reconciler assigns are modelled, the object spread
preserves the rest. -/
structure NodeTypeCfg where
  position : Option Position
  icon : Option String
deriving DecidableEq, Repr

/-- An `allowedConnections[]` entry `{from, to, via}`. -/
structure Connection where
  from_ : String
  to_ : String
  via : String
deriving DecidableEq, Repr

/-- A `PathBasedGraphConfiguration`: `nodeTypes` is a string-keyed record
(modelled as a function), `allowedConnections` an array, `display` optional. -/
structure PathConfig where
  nodeTypes : String → Option NodeTypeCfg
  allowedConnections : List Connection
  display : Option DisplayCfg

/-- One iteration of the position-changes loop of `applyChangesToConfig`:
replace `nodeTypes[nodeId]` by a copy with the rounded position (the
`hasPositionChanges` flag is set regardless of whether the key exists). -/
def applyPositionChangeCfg (m : String → Option NodeTypeCfg) (pc : PositionChange) :
    String → Option NodeTypeCfg :=
  match m pc.nodeId with
  | some v => fun k =>
      if k = pc.nodeId then
        some { v with position := some ⟨(jsRound pc.position.x : ℚ), (jsRound pc.position.y : ℚ)⟩ }
      else m k
  | none => m

/-- One iteration of the node-updates loop of `applyChangesToConfig`: on a
rename, delete the old key, store the captured entry under the new key and
rewrite `allowedConnections`; then apply the icon update to
`nodeTypes[updates.type || nodeId]`. -/
def applyNodeUpdateCfg (st : (String → Option NodeTypeCfg) × List Connection)
    (u : NodeUpdate) : (String → Option NodeTypeCfg) × List Connection :=
  let m := st.1
  let ac := st.2
  match m u.nodeId with
  | none => (m, ac)
  | some nodeType =>
    let st1 :=
      match renameTarget u with
      | some t =>
        ((fun k => if k = t then some nodeType else if k = u.nodeId then none else m k),
         ac.map (fun c =>
           { c with
             from_ := if c.from_ = u.nodeId then t else c.from_,
             to_ := if c.to_ = u.nodeId then t else c.to_ }))
      | none => (m, ac)
    match u.updates.data with
    | some d =>
      let targetId :=
        match u.updates.type with
        | some t => if t ≠ "" then t else u.nodeId
        | none => u.nodeId
      match d.icon with
      | some s =>
        if s ≠ "" then
          match st1.1 targetId with
          | some v => ((fun k => if k = targetId then some { v with icon := some s } else st1.1 k), st1.2)
          | none => st1
        else st1
      | none => st1
    | none => st1

/-- One iteration of the node-deletions loop of `applyChangesToConfig`:
`delete nodeTypes[nodeId]` and drop every connection touching the id. -/
def applyNodeDeletionCfg (st : (String → Option NodeTypeCfg) × List Connection)
    (nodeId : String) : (String → Option NodeTypeCfg) × List Connection :=
  ((fun k => if k = nodeId then none else st.1 k),
   st.2.filter (fun c => c.from_ != nodeId && c.to_ != nodeId))

/-- The duplicate test of the edge-creations loop of `applyChangesToConfig`. -/
def connMatches (f t v : String) (c : Connection) : Bool :=
  c.from_ == f && c.to_ == t && c.via == v

/-- One iteration of the edge-creations loop of `applyChangesToConfig`: push
`{from, to, via}` unless an identical connection already exists. -/
def applyEdgeCreationCfg (ac : List Connection) (ce : CreatedEdge) : List Connection :=
  if ac.any (connMatches ce.from_ ce.to_ ce.type) then ac
  else ac ++ [{ from_ := ce.from_, to_ := ce.to_, via := ce.type }]

/-- The edge-creations loop of `applyChangesToConfig`. -/
def applyEdgeCreationsCfg (ac : List Connection) (ces : List CreatedEdge) : List Connection :=
  ces.foldl applyEdgeCreationCfg ac

/-- One iteration of the edge-deletions loop of `applyChangesToConfig`. -/
def applyEdgeDeletionCfg (ac : List Connection) (d : DeletedEdge) : List Connection :=
  ac.filter (fun c => !(c.from_ == d.from_ && c.to_ == d.to_ && c.via == d.type))

/-- `applyChangesToConfig(config, changes)` (VisualValidationGraphPanel.tsx,
lines 994–1077).  Deep-copies the configuration and applies, in order:
position changes, node updates, node deletions, edge creations, edge
deletions; finally forces `display.layout` to `manual` when the batch held at
least one position change (`{...display, layout: 'manual'}`). -/
def applyChangesToConfig (config : PathConfig) (changes : PendingChanges) : PathConfig :=
  let hasPositionChanges := !changes.positionChanges.isEmpty
  let m1 := changes.positionChanges.foldl applyPositionChangeCfg config.nodeTypes
  let st2 := changes.nodeUpdates.foldl applyNodeUpdateCfg (m1, config.allowedConnections)
  let st3 := changes.deletedNodeIds.foldl applyNodeDeletionCfg st2
  let ac4 := applyEdgeCreationsCfg st3.2 changes.createdEdges
  let ac5 := changes.deletedEdges.foldl applyEdgeDeletionCfg ac4
  let cfg1 := { config with nodeTypes := st3.1, allowedConnections := ac5 }
  if hasPositionChanges then
    { cfg1 with display := some { (cfg1.display.getD { layout := none }) with layout := some "manual" } }
  else cfg1

/-- A file record of the host's file tree slice (`{path?, relativePath?, name?}`). -/
structure FileRec where
  path : Option String
  relativePath : Option String
  name : Option String
deriving DecidableEq, Repr

/-- A `ConfigFile` discovery record of `ConfigLoader.findConfigs`. -/
structure ConfigFile where
  id : String
  name : String
  path : String
  source : String
deriving DecidableEq, Repr

/-- A `TraceFile` discovery record of `TraceLoader.findTraceFiles`. -/
structure TraceFile where
  id : String
  name : String
  path : String
  packageName : Option String
deriving DecidableEq, Repr

/-- JS `a || b` on strings: the empty string is falsy. -/
def strOr (a b : String) : String :=
  if a = "" then b else a

/-- An optional string read as a JS value (`undefined` coerces to `''` via
the `|| ''` chains of the code). -/
def optStr (a : Option String) : String :=
  a.getD ""

/-- JS truthiness of an optional string (`undefined` and `''` are falsy). -/
def strTruthy : Option String → Bool
  | some s => s ≠ ""
  | none => false

/-- JS `str.split(sep)` for a one-character separator, on the character
list. -/
def splitCharList (c : Char) : List Char → List (List Char)
  | [] => [[]]
  | x :: xs =>
    let r := splitCharList c xs
    if x = c then [] :: r
    else
      match r with
      | h :: t => (x :: h) :: t
      | [] => [[x]]

/-- JS `str.split(sep)` for a one-character separator. -/
def splitChar (c : Char) (s : String) : List String :=
  (splitCharList c s.data).map String.mk

/-- JS `arr.join(sep)`. -/
def joinSep (sep : String) : List String → String
  | [] => ""
  | [x] => x
  | x :: xs => x ++ sep ++ joinSep sep xs

/-- `file.relativePath || file.path || ''`. -/
def filePathOf (f : FileRec) : String :=
  strOr (optStr f.relativePath) (optStr f.path)

/-- `filePath.split('/').pop() || ''`. -/
def lastSeg (p : String) : String :=
  ((splitChar '/' p).getLast?).getD ""

/-- JS `word.charAt(0).toUpperCase() + word.slice(1)` (ASCII upcasing). -/
def capitalizeWord (w : String) : String :=
  match w.data with
  | [] => ""
  | c :: cs => String.mk (c.toUpper :: cs)

/-- Kebab-case to Title Case: split on `-`, capitalize, join with spaces. -/
def kebabToTitle (s : String) : String :=
  joinSep " " ((splitChar '-' s).map capitalizeWord)

/-- `isCanvasFile` (ConfigLoader.ts): the filename ends with `.canvas`. -/
def isCanvasFile (filename : String) : Bool :=
  strEndsWith filename ".canvas"

/-- `getConfigNameFromFilename`: strip one trailing `.canvas`. -/
def getConfigNameFromFilename (filename : String) : String :=
  if strEndsWith filename ".canvas" then strDropRight filename 7 else filename

/-- The loop body of `ConfigLoader.findConfigs`: keep `.canvas` files under
the `.vgc/` folder, deriving id and Title-Case display name. -/
def toConfigFile (f : FileRec) : Option ConfigFile :=
  let filePath := filePathOf f
  let fileName := optStr f.name
  if strStartsWith filePath ".vgc/" && isCanvasFile fileName then
    let configName := getConfigNameFromFilename fileName
    some { id := configName, name := kebabToTitle configName, path := filePath, source := "folder" }
  else none

/-- `ConfigLoader.findConfigs(files)` (ConfigLoader.ts, lines 47–75): collect
matches in input order; no sorting is applied. -/
def findConfigs (files : List FileRec) : List ConfigFile :=
  files.filterMap toConfigFile

/-- Strip one trailing `.canvas.json`, requiring a non-empty base (`(.+)` of
the trace-file patterns). -/
def stripCanvasJson (s : String) : Option String :=
  if strEndsWith s ".canvas.json" && decide (12 < s.data.length) then
    some (strDropRight s 12)
  else none

/-- `getTraceNameFromFilename`: strip one trailing `.canvas.json`, then
kebab-case to Title Case. -/
def getTraceNameFromFilename (filename : String) : String :=
  kebabToTitle (if strEndsWith filename ".canvas.json" then strDropRight filename 12 else filename)

/-- The `TRACE_FILE_PATTERNS` matching of `TraceLoader.findTraceFiles`
(first match wins; the three patterns have disjoint leading components):
`packages/([^/]+)/__traces__/(.+).canvas.json`,
`.principal-views/__traces__/(.+).canvas.json`,
`__traces__/(.+).canvas.json`.  Returns `(packageName?, id)`. -/
def matchTracePath (filePath : String) : Option (Option String × String) :=
  match splitChar '/' filePath with
  | "packages" :: pkg :: "__traces__" :: rest =>
    if pkg ≠ "" ∧ rest ≠ [] then
      match stripCanvasJson (joinSep "/" rest) with
      | some base => some (some pkg, pkg ++ "-" ++ base)
      | none => none
    else none
  | ".principal-views" :: "__traces__" :: rest =>
    if rest ≠ [] then
      match stripCanvasJson (joinSep "/" rest) with
      | some base => some (none, "pv-" ++ base)
      | none => none
    else none
  | "__traces__" :: rest =>
    if rest ≠ [] then
      match stripCanvasJson (joinSep "/" rest) with
      | some base => some (none, base)
      | none => none
    else none
  | _ => none

/-- The loop body of `TraceLoader.findTraceFiles`. -/
def toTraceFile (f : FileRec) : Option TraceFile :=
  let filePath := filePathOf f
  let fileName := strOr (optStr f.name) (lastSeg filePath)
  match matchTracePath filePath with
  | some pm =>
    some { id := pm.2, name := getTraceNameFromFilename fileName, path := filePath,
           packageName := pm.1 }
  | none => none

/-- `String.prototype.localeCompare`, modelled as code-unit comparison. -/
def localeCompare (a b : String) : Int :=
  if a < b then -1 else if b < a then 1 else 0

/-- The sort comparator of `TraceLoader.findTraceFiles` (part_004, lines
273–283): compare package names when both records carry one, put records with
a package name first otherwise, and fall back to the display name. -/
def traceCmp (a b : TraceFile) : Int :=
  if strTruthy a.packageName ∧ strTruthy b.packageName then
    let pkgCompare := localeCompare (optStr a.packageName) (optStr b.packageName)
    if pkgCompare ≠ 0 then pkgCompare else localeCompare a.name b.name
  else if strTruthy a.packageName then -1
  else if strTruthy b.packageName then 1
  else localeCompare a.name b.name

/-- The order induced by `traceCmp` (`a` may come before `b`). -/
def traceLe (a b : TraceFile) : Prop :=
  traceCmp a b ≤ 0

instance : DecidableRel traceLe :=
  fun a b => inferInstanceAs (Decidable (traceCmp a b ≤ 0))

/-- `TraceLoader.findTraceFiles(files)` (part_004, lines 228–284): collect
pattern matches, then sort with `traceCmp`.  `Array.prototype.sort` is stable
and is modelled by the (stable) insertion sort. -/
def findTraceFiles (files : List FileRec) : List TraceFile :=
  List.insertionSort traceLe (files.filterMap toTraceFile)

/-- A JSON value (the result of the external `JSON.parse`). -/
inductive Json where
  | null : Json
  | bool : Bool → Json
  | num : ℚ → Json
  | str : String → Json
  | arr : List Json → Json
  | obj : List (String × Json) → Json

/-- `ConfigLoader.parseCanvas(content)` (ConfigLoader.ts, lines 35–41):
delegate to `JSON.parse` (the `jsonParse` parameter models the external
library) and re-throw parse failures with a prefixed message.  The parsed
value is returned as-is — the cast `as ExtendedCanvas` performs no check. -/
def parseCanvas (jsonParse : String → Except String Json) (content : String) :
    Except String Json :=
  match jsonParse content with
  | Except.ok v => Except.ok v
  | Except.error msg => Except.error ("Failed to parse canvas JSON: " ++ msg)

/-- `TraceLoader.parseTraceCanvas(content)` (part_004, lines 175–181): same
shape as `parseCanvas` with a different message. -/
def parseTraceCanvas (jsonParse : String → Except String Json) (content : String) :
    Except String Json :=
  match jsonParse content with
  | Except.ok v => Except.ok v
  | Except.error msg => Except.error ("Failed to parse trace canvas JSON: " ++ msg)

/-- Whether a JSON value is an object carrying the key `k`. -/
def jsonHasKey (j : Json) (k : String) : Bool :=
  match j with
  | Json.obj fields => fields.any (fun kv => kv.1 == k)
  | _ => false

/-- Modelled from the spec: the "required top-level fields
(`metadata`/`nodes`/`edges` or the equivalent path-based shape)" — a document
must at least be a JSON object carrying `nodes` and `edges` (canvas form) or
`metadata` (path-based form).  No such check exists in the source; this
definition exists only to state the spec's claimed validation. -/
def specRequiredShape (j : Json) : Bool :=
  (jsonHasKey j "nodes" && jsonHasKey j "edges") || jsonHasKey j "metadata"

/-! ### Measurements and invariants used by the theorems -/

/-- Number of canvas edges matching a `(from, to, type)` triple. -/
def countEdgeTriple (es : List CanvasEdge) (f t v : String) : Nat :=
  (es.filter (edgeMatches f t v)).length

/-- Number of connections matching a `(from, to, via)` triple. -/
def countConnTriple (ac : List Connection) (f t v : String) : Nat :=
  (ac.filter (connMatches f t v)).length

/-- The node ids of a canvas node array. -/
def nodeIds (nodes : Option (List CanvasNode)) : List String :=
  (nodes.getD []).map (fun n => n.id)

/-- Referential integrity: every edge endpoint names an existing node. -/
def integrity (nodes : Option (List CanvasNode)) (edges : Option (List CanvasEdge)) : Prop :=
  ∀ e ∈ edges.getD [], e.fromNode ∈ nodeIds nodes ∧ e.toNode ∈ nodeIds nodes

/-! ### Concrete inputs used by individual claims -/

/-- Batch that both deletes and creates the `(a, b, flow)` edge. -/
def delCreateChanges : PendingChanges :=
  { positionChanges := [], dimensionChanges := [], nodeUpdates := [], deletedNodeIds := []
    createdEdges := [{ from_ := "a", to_ := "b", type := "flow", sourceHandle := none,
                       targetHandle := none }]
    deletedEdges := [{ from_ := "a", to_ := "b", type := "flow" }] }

/-- Path-based configuration holding exactly the connection `(a, b, flow)`. -/
def c1config : PathConfig :=
  { nodeTypes := fun _ => none
    allowedConnections := [{ from_ := "a", to_ := "b", via := "flow" }]
    display := none }

/-- Canvas document holding exactly one `(a, b, flow)` edge. -/
def c1canvas : Canvas :=
  { nodes := some []
    edges := some [{ id := "e1", fromNode := "a", toNode := "b", fromSide := none, toSide := none,
                     pv := some { edgeType := some "flow" } }]
    pv := none }

/-- Canvas document that already contains an `(a, b, flow)` edge. -/
def c2canvas : Canvas :=
  { nodes := some []
    edges := some [{ id := "e1", fromNode := "a", toNode := "b", fromSide := none, toSide := none,
                     pv := some { edgeType := some "flow" } }]
    pv := none }

/-- Batch creating one `(a, b, flow)` edge and nothing else. -/
def c2changes : PendingChanges :=
  { positionChanges := [], dimensionChanges := [], nodeUpdates := [], deletedNodeIds := []
    createdEdges := [{ from_ := "a", to_ := "b", type := "flow", sourceHandle := none,
                       targetHandle := none }]
    deletedEdges := [] }

/-- Canvas document with `display.layout = 'auto'` in its `pv` metadata. -/
def c3canvas : Canvas :=
  { nodes := some [{ id := "a", x := 0, y := 0, width := 100, height := 100, text := none,
                     pv := none }]
    edges := some []
    pv := some { display := some { layout := some "auto" } } }

/-- Batch holding one position change. -/
def c3changes : PendingChanges :=
  { positionChanges := [{ nodeId := "a", position := { x := 10, y := 20 } }]
    dimensionChanges := [], nodeUpdates := [], deletedNodeIds := [], createdEdges := []
    deletedEdges := [] }

/-- Canvas document with nodes `{a, b}` and no edges. -/
def c5canvas : Canvas :=
  { nodes := some [{ id := "a", x := 0, y := 0, width := 100, height := 100, text := none,
                     pv := none },
                   { id := "b", x := 0, y := 0, width := 100, height := 100, text := none,
                     pv := none }]
    edges := some []
    pv := none }

/-- Batch deleting node `b` while also creating an edge pointing at `b`. -/
def c5badChanges : PendingChanges :=
  { positionChanges := [], dimensionChanges := [], nodeUpdates := [], deletedNodeIds := ["b"]
    createdEdges := [{ from_ := "a", to_ := "b", type := "flow", sourceHandle := none,
                       targetHandle := none }]
    deletedEdges := [] }

/-- Canvas document with nodes `{a, b, c}` and edges `a→b`, `b→c`. -/
def c5chainCanvas : Canvas :=
  { nodes := some [{ id := "a", x := 0, y := 0, width := 100, height := 100, text := none,
                     pv := none },
                   { id := "b", x := 0, y := 0, width := 100, height := 100, text := none,
                     pv := none },
                   { id := "c", x := 0, y := 0, width := 100, height := 100, text := none,
                     pv := none }]
    edges := some [{ id := "e1", fromNode := "a", toNode := "b", fromSide := none, toSide := none,
                     pv := some { edgeType := some "flow" } },
                   { id := "e2", fromNode := "b", toNode := "c", fromSide := none, toSide := none,
                     pv := some { edgeType := some "flow" } }]
    pv := none }

/-- Batch deleting node `b` and nothing else. -/
def c5delBChanges : PendingChanges :=
  { positionChanges := [], dimensionChanges := [], nodeUpdates := [], deletedNodeIds := ["b"]
    createdEdges := [], deletedEdges := [] }

/-- Empty canvas document. -/
def c7canvas : Canvas :=
  { nodes := some [], edges := some [], pv := none }

/-- Batch creating two edges between the same endpoints with different types;
processed during the same millisecond (`Date.now()` returns `5` for both
calls). -/
def c7changes : PendingChanges :=
  { positionChanges := [], dimensionChanges := [], nodeUpdates := [], deletedNodeIds := []
    createdEdges := [{ from_ := "a", to_ := "b", type := "t1", sourceHandle := none,
                       targetHandle := none },
                     { from_ := "a", to_ := "b", type := "t2", sourceHandle := none,
                       targetHandle := none }]
    deletedEdges := [] }

/-- Empty canvas document for the handle-conversion claim. -/
def c10canvas : Canvas :=
  { nodes := some [], edges := some [], pv := none }

/-- Batch creating one edge whose source handle carries the renderer `-out`
suffix and whose target handle is outside the side vocabulary. -/
def c10changes : PendingChanges :=
  { positionChanges := [], dimensionChanges := [], nodeUpdates := [], deletedNodeIds := []
    createdEdges := [{ from_ := "a", to_ := "b", type := "flow",
                       sourceHandle := some "right-out", targetHandle := some "weird" }]
    deletedEdges := [] }

/-- Two-node document with a single `A→B` edge (rename-propagation claim). -/
def c4doc (A B : String) : Canvas :=
  { nodes := some [{ id := A, x := 0, y := 0, width := 100, height := 100, text := none,
                     pv := none },
                   { id := B, x := 0, y := 0, width := 100, height := 100, text := none,
                     pv := none }]
    edges := some [{ id := "e1", fromNode := A, toNode := B, fromSide := none, toSide := none,
                     pv := some { edgeType := some "flow" } }]
    pv := none }

/-- Batch renaming node `A` to `A2` and nothing else. -/
def c4chg (A A2 : String) : PendingChanges :=
  { positionChanges := [], dimensionChanges := []
    nodeUpdates := [{ nodeId := A, updates := { type := some A2, data := none } }]
    deletedNodeIds := [], createdEdges := [], deletedEdges := [] }

/-- File list holding one namespaced (monorepo package) trace file and one
un-namespaced trace file. -/
def c8files : List FileRec :=
  [{ path := none, relativePath := some "packages/zzz/__traces__/alpha.canvas.json",
     name := some "alpha.canvas.json" },
   { path := none, relativePath := some "__traces__/beta.canvas.json",
     name := some "beta.canvas.json" }]

/-- A concrete oracle consistent with the external `JSON.parse`: the input
`"42"` is valid JSON denoting the number `42` (which is not an object and
carries no top-level fields); everything else is rejected. -/
def jsonParse42 : String → Except String Json :=
  fun s => if s = "42" then Except.ok (Json.num 42) else Except.error "Unexpected token"

/-! ## Helper lemmas -/

/-- A created-edge entry matching a `(from, to, via)` triple makes
`connMatches` true on the connection it pushes, and vice versa. -/
theorem connMatches_pushed (f t v : String) (ce : CreatedEdge) :
    connMatches f t v { from_ := ce.from_, to_ := ce.to_, via := ce.type }
      = (ce.from_ == f && ce.to_ == t && ce.type == v) := rfl

/-- Effect of the `applyChangesToConfig` edge-creations loop on the number of
connections with a fixed `(from, to, via)` triple: existing occurrences are
kept, and the creation entries contribute at most one occurrence in total. -/
theorem countConnTriple_creations (f t v : String) :
    ∀ (ces : List CreatedEdge) (ac : List Connection),
      countConnTriple (applyEdgeCreationsCfg ac ces) f t v
        = max (countConnTriple ac f t v)
            (if ces.any (fun ce => ce.from_ == f && ce.to_ == t && ce.type == v) then 1 else 0)
  | [], ac => by simp [applyEdgeCreationsCfg]
  | ce :: rest, ac => by
    have ih := countConnTriple_creations f t v rest (applyEdgeCreationCfg ac ce)
    have hstep : applyEdgeCreationsCfg ac (ce :: rest)
        = applyEdgeCreationsCfg (applyEdgeCreationCfg ac ce) rest := by
      simp [applyEdgeCreationsCfg]
    rw [hstep, ih, List.any_cons]
    by_cases hc : ce.from_ = f ∧ ce.to_ = t ∧ ce.type = v
    · obtain ⟨hf, ht, hv⟩ := hc
      subst hf; subst ht; subst hv
      have hself : (ce.from_ == ce.from_ && ce.to_ == ce.to_ && ce.type == ce.type) = true := by
        simp
      rw [hself, Bool.true_or]
      by_cases h2 : ac.any (connMatches ce.from_ ce.to_ ce.type) = true
      · have hpos : 1 ≤ countConnTriple ac ce.from_ ce.to_ ce.type := by
          rcases List.any_eq_true.mp h2 with ⟨c, hcmem, hcm⟩
          have hmem : c ∈ ac.filter (connMatches ce.from_ ce.to_ ce.type) :=
            List.mem_filter.mpr ⟨hcmem, hcm⟩
          have := List.length_pos.mpr (List.ne_nil_of_mem hmem)
          unfold countConnTriple
          omega
        have hskip : applyEdgeCreationCfg ac ce = ac := by
          unfold applyEdgeCreationCfg
          rw [if_pos h2]
        rw [hskip, if_pos rfl]
        simp only [Nat.max_def]
        split_ifs <;> omega
      · have hzero : countConnTriple ac ce.from_ ce.to_ ce.type = 0 := by
          have hall := List.any_eq_false.mp (Bool.eq_false_iff.mpr h2)
          unfold countConnTriple
          rw [List.filter_eq_nil_iff.mpr (fun c hcm => by simpa using hall c hcm)]
          rfl
        have hpush : applyEdgeCreationCfg ac ce
            = ac ++ [{ from_ := ce.from_, to_ := ce.to_, via := ce.type }] := by
          unfold applyEdgeCreationCfg
          rw [if_neg h2]
        have hone : countConnTriple (ac ++ [{ from_ := ce.from_, to_ := ce.to_, via := ce.type }])
            ce.from_ ce.to_ ce.type = 1 := by
          unfold countConnTriple at hzero ⊢
          rw [List.filter_append]
          simp [connMatches, hzero]
        rw [hpush, hone, hzero, if_pos rfl]
        simp only [Nat.max_def]
        split_ifs <;> omega
    · have hne : (ce.from_ == f && ce.to_ == t && ce.type == v) = false := by
        rcases h : (ce.from_ == f && ce.to_ == t && ce.type == v) with _ | _
        · rfl
        · exfalso
          apply hc
          simpa only [Bool.and_eq_true, beq_iff_eq, and_assoc] using h
      have hsame : countConnTriple (applyEdgeCreationCfg ac ce) f t v
          = countConnTriple ac f t v := by
        unfold applyEdgeCreationCfg
        split
        · rfl
        · unfold countConnTriple
          rw [List.filter_append]
          simp [connMatches_pushed, hne]
      rw [hsame, hne, Bool.false_or]

/-- The freshly pushed canvas edge matches a triple exactly when its creation
entry does, whatever the timestamp. -/
theorem edgeMatches_mkCreatedEdge (f t v : String) (ti : Nat) (ce : CreatedEdge) :
    edgeMatches f t v (mkCreatedEdge ti ce)
      = (ce.from_ == f && ce.to_ == t && ce.type == v) := rfl

/-- Effect of the `applyChangesToCanvas` edge-creations loop on the number of
edges with a fixed `(from, to, type)` triple: every creation entry with that
triple adds one edge, unconditionally. -/
theorem countEdgeTriple_creations (f t v : String) (now : Nat → Nat) :
    ∀ (ces : List CreatedEdge) (i : Nat) (edges : Option (List CanvasEdge)),
      countEdgeTriple ((applyEdgeCreations now i edges ces).getD []) f t v
        = countEdgeTriple (edges.getD []) f t v
          + (ces.filter (fun ce => ce.from_ == f && ce.to_ == t && ce.type == v)).length
  | [], i, edges => by simp [applyEdgeCreations]
  | ce :: rest, i, edges => by
    have ih := countEdgeTriple_creations f t v now rest (i + 1)
      (some (edges.getD [] ++ [mkCreatedEdge (now i) ce]))
    have hstep : applyEdgeCreations now i edges (ce :: rest)
        = applyEdgeCreations now (i + 1) (some (edges.getD [] ++ [mkCreatedEdge (now i) ce]))
            rest := rfl
    rw [hstep, ih]
    have happ : countEdgeTriple ((some (edges.getD [] ++ [mkCreatedEdge (now i) ce])).getD [])
        f t v = countEdgeTriple (edges.getD []) f t v
          + (if ce.from_ == f && ce.to_ == t && ce.type == v then 1 else 0) := by
      unfold countEdgeTriple
      rw [Option.getD_some, List.filter_append]
      rw [List.length_append]
      congr 1
      rcases h : (ce.from_ == f && ce.to_ == t && ce.type == v) with _ | _
      · simp [edgeMatches_mkCreatedEdge, h]
      · simp [edgeMatches_mkCreatedEdge, h]
    rw [happ, List.filter_cons]
    rcases h : (ce.from_ == f && ce.to_ == t && ce.type == v) with _ | _
    · simp [h]
    · simp [h]
      omega

/-- The edge-creations loop only appends: existing edges survive it. -/
theorem mem_applyEdgeCreations_mono (now : Nat → Nat) :
    ∀ (ces : List CreatedEdge) (i : Nat) (edges : Option (List CanvasEdge)) (e : CanvasEdge),
      e ∈ edges.getD [] → e ∈ (applyEdgeCreations now i edges ces).getD []
  | [], _, _, _ => fun h => h
  | ce :: rest, i, edges, e => fun h =>
    mem_applyEdgeCreations_mono now rest (i + 1)
      (some (edges.getD [] ++ [mkCreatedEdge (now i) ce])) e
      (by simpa using Or.inl h)

/-- Every creation entry contributes an edge (pushed with the timestamp of
its iteration) to the result of the edge-creations loop. -/
theorem created_mem_applyEdgeCreations (now : Nat → Nat) :
    ∀ (ces : List CreatedEdge) (i : Nat) (edges : Option (List CanvasEdge)) (ce : CreatedEdge),
      ce ∈ ces → ∃ t, mkCreatedEdge t ce ∈ (applyEdgeCreations now i edges ces).getD []
  | [], _, _, ce => fun h => absurd h (List.not_mem_nil ce)
  | ce0 :: rest, i, edges, ce => fun h => by
    rcases List.mem_cons.mp h with h1 | h2
    · subst h1
      exact ⟨now i, mem_applyEdgeCreations_mono now rest (i + 1)
        (some (edges.getD [] ++ [mkCreatedEdge (now i) ce])) _ (by simp)⟩
    · exact created_mem_applyEdgeCreations now rest (i + 1)
        (some (edges.getD [] ++ [mkCreatedEdge (now i) ce0])) ce h2

/-- The data-update step of the node-updates loop never changes a node id. -/
theorem applyDataUpdate_id (u : NodeUpdate) (n : CanvasNode) :
    (applyDataUpdate u n).id = n.id := by
  unfold applyDataUpdate
  rcases u with ⟨nodeId, ⟨type, data⟩⟩
  dsimp only
  rcases data with _ | ⟨icon, label⟩
  · rfl
  · dsimp only
    rcases icon with _ | s <;> rcases n with ⟨nid, nx, ny, nw, nh, ntext, npv⟩ <;>
      rcases npv with _ | p <;> rcases label with _ | l <;>
      dsimp only <;> split_ifs <;> rfl

/-- `updateFirst` with a function preserving an observation preserves the
observation list. -/
theorem map_updateFirst_of_preserve {α β : Type} (p : α → Bool) (f : α → α) (g : α → β)
    (hf : ∀ x, g (f x) = g x) : ∀ l : List α, (updateFirst p f l).map g = l.map g
  | [] => rfl
  | x :: xs => by
    unfold updateFirst
    split
    · simp [hf]
    · simp [map_updateFirst_of_preserve p f g hf xs]

/-- After replacing the first node matching an old id by a node with new id
`t`, the id `t` occurs among the node ids (provided some node matched). -/
theorem newId_mem_updateFirst (t oldId : String) (f : CanvasNode → CanvasNode)
    (hf : ∀ x, (f x).id = t) :
    ∀ l : List CanvasNode, (∃ n ∈ l, n.id = oldId) →
      t ∈ (updateFirst (fun n => n.id == oldId) f l).map (fun n => n.id)
  | [], h => absurd h (by simp)
  | x :: xs, h => by
    unfold updateFirst
    by_cases hx : (x.id == oldId) = true
    · rw [if_pos hx]
      simp [hf]
    · rw [if_neg hx]
      simp only [List.map_cons, List.mem_cons]
      right
      apply newId_mem_updateFirst t oldId f hf xs
      rcases h with ⟨n, hn, hid⟩
      rcases List.mem_cons.mp hn with rfl | hmem
      · exact absurd (by simp [hid]) hx
      · exact ⟨n, hmem, hid⟩

/-- Node ids other than the renamed one survive `updateFirst`. -/
theorem oldId_mem_updateFirst (oldId : String) (f : CanvasNode → CanvasNode)
    (x : String) (hx : x ≠ oldId) :
    ∀ l : List CanvasNode, x ∈ l.map (fun n => n.id) →
      x ∈ (updateFirst (fun n => n.id == oldId) f l).map (fun n => n.id)
  | [], h => h
  | y :: ys, h => by
    unfold updateFirst
    rcases List.mem_cons.mp h with h1 | h2
    · have hy : ¬(y.id == oldId) = true := by
        simp only [beq_iff_eq]
        intro hcon
        exact hx (h1.trans hcon)
      rw [if_neg hy]
      simp [h1]
    · by_cases hy : (y.id == oldId) = true
      · rw [if_pos hy]
        simp only [List.map_cons, List.mem_cons]
        exact Or.inr h2
      · rw [if_neg hy]
        simp only [List.map_cons, List.mem_cons]
        exact Or.inr (oldId_mem_updateFirst oldId f x hx ys h2)

/-- One node-update entry preserves referential integrity. -/
theorem integrity_applyNodeUpdate (st : Option (List CanvasNode) × Option (List CanvasEdge))
    (u : NodeUpdate) (h : integrity st.1 st.2) :
    integrity (applyNodeUpdate st u).1 (applyNodeUpdate st u).2 := by
  obtain ⟨nodes, edges⟩ := st
  rcases hfind : (nodes.getD []).find? (fun n => n.id == u.nodeId) with _ | n0
  · have heq : applyNodeUpdate (nodes, edges) u = (nodes, edges) := by
      unfold applyNodeUpdate
      dsimp only
      rw [hfind]
    rw [heq]
    exact h
  · rcases hren : renameTarget u with _ | t
    · have heq : applyNodeUpdate (nodes, edges) u
          = (nodes.map (updateFirst (fun n => n.id == u.nodeId) (applyDataUpdate u)), edges) := by
        unfold applyNodeUpdate
        dsimp only
        rw [hfind, hren]
      rw [heq]
      intro e he
      have hids : nodeIds (nodes.map (updateFirst (fun n => n.id == u.nodeId)
          (applyDataUpdate u))) = nodeIds nodes := by
        rcases nodes with _ | l
        · rfl
        · unfold nodeIds
          simp only [Option.map_some', Option.getD_some]
          exact map_updateFirst_of_preserve _ _ _ (fun x => applyDataUpdate_id u x) l
      show e.fromNode ∈ nodeIds _ ∧ e.toNode ∈ nodeIds _
      rw [hids]
      exact h e he
    · have heq : applyNodeUpdate (nodes, edges) u
          = (nodes.map (updateFirst (fun n => n.id == u.nodeId)
               (fun n => applyDataUpdate u { n with id := t })),
             edges.map (List.map (fun e =>
               { e with
                 fromNode := if e.fromNode == u.nodeId then t else e.fromNode,
                 toNode := if e.toNode == u.nodeId then t else e.toNode }))) := by
        unfold applyNodeUpdate
        dsimp only
        rw [hfind, hren]
      rw [heq]
      intro e' he'
      rcases hedges : edges with _ | es
      · rw [hedges] at he'
        simp at he'
      · rw [hedges] at he'
        simp only [Option.map_some', Option.getD_some, List.mem_map] at he'
        obtain ⟨e, he, rfl⟩ := he'
        rcases hnodes : nodes with _ | l
        · rw [hnodes] at hfind
          simp at hfind
        · rw [hnodes] at hfind
          simp only [Option.getD_some] at hfind
          have hn0mem : n0 ∈ l := List.mem_of_find?_eq_some hfind
          have hn0id : n0.id = u.nodeId := by simpa using List.find?_some hfind
          have hex : ∃ n ∈ l, n.id = u.nodeId := ⟨n0, hn0mem, hn0id⟩
          have hft : ∀ x, ((fun n : CanvasNode => applyDataUpdate u { n with id := t }) x).id
              = t := by
            intro x
            rw [applyDataUpdate_id]
          have hint := h e (by rw [hedges]; simpa using he)
          constructor
          · dsimp only
            by_cases hf : (e.fromNode == u.nodeId) = true
            · rw [if_pos hf]
              show t ∈ (updateFirst (fun n => n.id == u.nodeId)
                (fun n : CanvasNode => applyDataUpdate u { n with id := t }) l).map
                (fun n => n.id)
              exact newId_mem_updateFirst t u.nodeId _ hft l hex
            · rw [if_neg hf]
              have hne : e.fromNode ≠ u.nodeId := by simpa using hf
              show e.fromNode ∈ (updateFirst (fun n => n.id == u.nodeId)
                (fun n : CanvasNode => applyDataUpdate u { n with id := t }) l).map
                (fun n => n.id)
              exact oldId_mem_updateFirst u.nodeId _ e.fromNode hne l (by
                have hh := hint.1
                rw [hnodes] at hh
                simpa [nodeIds] using hh)
          · dsimp only
            by_cases hf : (e.toNode == u.nodeId) = true
            · rw [if_pos hf]
              show t ∈ (updateFirst (fun n => n.id == u.nodeId)
                (fun n : CanvasNode => applyDataUpdate u { n with id := t }) l).map
                (fun n => n.id)
              exact newId_mem_updateFirst t u.nodeId _ hft l hex
            · rw [if_neg hf]
              have hne : e.toNode ≠ u.nodeId := by simpa using hf
              show e.toNode ∈ (updateFirst (fun n => n.id == u.nodeId)
                (fun n : CanvasNode => applyDataUpdate u { n with id := t }) l).map
                (fun n => n.id)
              exact oldId_mem_updateFirst u.nodeId _ e.toNode hne l (by
                have hh := hint.2
                rw [hnodes] at hh
                simpa [nodeIds] using hh)

/-- The whole node-updates loop preserves referential integrity. -/
theorem integrity_applyNodeUpdates :
    ∀ (us : List NodeUpdate) (st : Option (List CanvasNode) × Option (List CanvasEdge)),
      integrity st.1 st.2 →
        integrity (applyNodeUpdates st us).1 (applyNodeUpdates st us).2
  | [], _ => fun h => h
  | u :: rest, st => fun h =>
    integrity_applyNodeUpdates rest (applyNodeUpdate st u) (integrity_applyNodeUpdate st u h)

/-- Membership in an optional list survives filtering. -/
theorem mem_of_mem_filter_opt {α : Type} (p : α → Bool) (o : Option (List α)) (x : α)
    (hx : x ∈ (o.map (List.filter p)).getD []) : x ∈ o.getD [] := by
  rcases o with _ | l
  · simp at hx
  · simpa using List.mem_of_mem_filter (by simpa using hx)

/-- One node deletion preserves any property of all nodes and edges. -/
theorem nodeDel_preserves (Qn : CanvasNode → Prop) (Qe : CanvasEdge → Prop)
    (st : Option (List CanvasNode) × Option (List CanvasEdge)) (nid : String)
    (hn : ∀ n ∈ st.1.getD [], Qn n) (he : ∀ e ∈ st.2.getD [], Qe e) :
    (∀ n ∈ (applyNodeDeletion st nid).1.getD [], Qn n)
      ∧ (∀ e ∈ (applyNodeDeletion st nid).2.getD [], Qe e) :=
  ⟨fun n hmem => hn n (mem_of_mem_filter_opt _ _ _ hmem),
   fun e hmem => he e (mem_of_mem_filter_opt _ _ _ hmem)⟩

/-- The node-deletions loop preserves any property of all nodes and edges. -/
theorem nodeDels_preserve (Qn : CanvasNode → Prop) (Qe : CanvasEdge → Prop) :
    ∀ (ids : List String) (st : Option (List CanvasNode) × Option (List CanvasEdge)),
      (∀ n ∈ st.1.getD [], Qn n) → (∀ e ∈ st.2.getD [], Qe e) →
      (∀ n ∈ (applyNodeDeletions st ids).1.getD [], Qn n)
        ∧ (∀ e ∈ (applyNodeDeletions st ids).2.getD [], Qe e)
  | [], _ => fun hn he => ⟨hn, he⟩
  | hd :: tl, st => fun hn he =>
    nodeDels_preserve Qn Qe tl (applyNodeDeletion st hd)
      (nodeDel_preserves Qn Qe st hd hn he).1 (nodeDel_preserves Qn Qe st hd hn he).2

/-- Deleting node `B` removes every node with id `B` and every edge touching
`B`. -/
theorem nodeDel_establishes (B : String)
    (st : Option (List CanvasNode) × Option (List CanvasEdge)) :
    (∀ n ∈ (applyNodeDeletion st B).1.getD [], n.id ≠ B)
      ∧ (∀ e ∈ (applyNodeDeletion st B).2.getD [], e.fromNode ≠ B ∧ e.toNode ≠ B) := by
  constructor
  · intro n hn
    have hn' : n ∈ (st.1.map (List.filter (fun n => n.id != B))).getD [] := hn
    rcases hno : st.1 with _ | l
    · rw [hno] at hn'
      simp at hn'
    · rw [hno] at hn'
      simp only [Option.map_some', Option.getD_some, List.mem_filter] at hn'
      simpa using hn'.2
  · intro e he
    have he' : e ∈ (st.2.map (List.filter
        (fun e => e.fromNode != B && e.toNode != B))).getD [] := he
    rcases hed : st.2 with _ | es
    · rw [hed] at he'
      simp at he'
    · rw [hed] at he'
      simp only [Option.map_some', Option.getD_some, List.mem_filter] at he'
      have hb := he'.2
      rw [Bool.and_eq_true] at hb
      exact ⟨by simpa using hb.1, by simpa using hb.2⟩

/-- After the node-deletions loop over a list containing `B`, no node has id
`B` and no edge touches `B`. -/
theorem nodeDels_establish (B : String) :
    ∀ (ids : List String), B ∈ ids →
      ∀ st : Option (List CanvasNode) × Option (List CanvasEdge),
        (∀ n ∈ (applyNodeDeletions st ids).1.getD [], n.id ≠ B)
          ∧ (∀ e ∈ (applyNodeDeletions st ids).2.getD [], e.fromNode ≠ B ∧ e.toNode ≠ B)
  | [], h => absurd h (List.not_mem_nil B)
  | hd :: tl, h => fun st => by
    have hstep : applyNodeDeletions st (hd :: tl)
        = applyNodeDeletions (applyNodeDeletion st hd) tl := rfl
    rcases List.mem_cons.mp h with rfl | htl
    · rw [hstep]
      exact nodeDels_preserve _ _ tl (applyNodeDeletion st B)
        (nodeDel_establishes B st).1 (nodeDel_establishes B st).2
    · rw [hstep]
      exact nodeDels_establish B tl htl (applyNodeDeletion st hd)

/-- The edge-deletions loop preserves any property of all edges. -/
theorem edgeDels_preserve (Q : CanvasEdge → Prop) :
    ∀ (ds : List DeletedEdge) (edges : Option (List CanvasEdge)),
      (∀ e ∈ edges.getD [], Q e) → ∀ e ∈ (applyEdgeDeletions edges ds).getD [], Q e
  | [], _ => fun h => h
  | d :: ds, edges => fun h =>
    edgeDels_preserve Q ds (applyEdgeDeletion edges d)
      (fun e he => h e (mem_of_mem_filter_opt _ _ _ he))

/-- The edge-creations loop preserves any property holding of the existing
edges and of every pushed edge. -/
theorem edgeCreations_preserve (Q : CanvasEdge → Prop) (now : Nat → Nat) :
    ∀ (ces : List CreatedEdge) (i : Nat) (edges : Option (List CanvasEdge)),
      (∀ e ∈ edges.getD [], Q e) → (∀ ce ∈ ces, ∀ t, Q (mkCreatedEdge t ce)) →
      ∀ e ∈ (applyEdgeCreations now i edges ces).getD [], Q e
  | [], _, _ => fun h _ => h
  | ce :: rest, i, edges => fun h hce => by
    apply edgeCreations_preserve Q now rest (i + 1) _ _
      (fun c hc t => hce c (List.mem_cons_of_mem _ hc) t)
    intro e he
    have he' : e ∈ edges.getD [] ++ [mkCreatedEdge (now i) ce] := by simpa using he
    rcases List.mem_append.mp he' with h1 | h2
    · exact h e h1
    · rw [List.mem_singleton.mp h2]
      exact hce ce (List.mem_cons_self _ _) (now i)

/-- One config node deletion keeps an already-deleted key deleted. -/
theorem cfgNodeDel_preserve_none (B : String) :
    ∀ (ids : List String) (st : (String → Option NodeTypeCfg) × List Connection),
      st.1 B = none → (List.foldl applyNodeDeletionCfg st ids).1 B = none
  | [], _ => fun h => h
  | hd :: tl, st => fun h =>
    cfgNodeDel_preserve_none B tl (applyNodeDeletionCfg st hd) (by
      show (if B = hd then none else st.1 B) = none
      split_ifs
      · rfl
      · exact h)

/-- After the config node-deletions loop over a list containing `B`, the
`nodeTypes` record no longer binds `B`. -/
theorem cfgNodeDels_none (B : String) :
    ∀ (ids : List String), B ∈ ids →
      ∀ st : (String → Option NodeTypeCfg) × List Connection,
        (List.foldl applyNodeDeletionCfg st ids).1 B = none
  | [], h => absurd h (List.not_mem_nil B)
  | hd :: tl, h => fun st => by
    rcases List.mem_cons.mp h with rfl | htl
    · exact cfgNodeDel_preserve_none B tl (applyNodeDeletionCfg st B) (by
        show (if B = B then none else st.1 B) = none
        rw [if_pos rfl])
    · exact cfgNodeDels_none B tl htl (applyNodeDeletionCfg st hd)

/-- The config node-deletions loop preserves any property of all
connections. -/
theorem cfgNodeDels_preserve_conns (Q : Connection → Prop) :
    ∀ (ids : List String) (st : (String → Option NodeTypeCfg) × List Connection),
      (∀ c ∈ st.2, Q c) → ∀ c ∈ (List.foldl applyNodeDeletionCfg st ids).2, Q c
  | [], _ => fun h => h
  | hd :: tl, st => fun h =>
    cfgNodeDels_preserve_conns Q tl (applyNodeDeletionCfg st hd)
      (fun c hc => h c (List.mem_of_mem_filter hc))

/-- After the config node-deletions loop over a list containing `B`, no
connection touches `B`. -/
theorem cfgNodeDels_establish_conns (B : String) :
    ∀ (ids : List String), B ∈ ids →
      ∀ st : (String → Option NodeTypeCfg) × List Connection,
        ∀ c ∈ (List.foldl applyNodeDeletionCfg st ids).2, c.from_ ≠ B ∧ c.to_ ≠ B
  | [], h => absurd h (List.not_mem_nil B)
  | hd :: tl, h => fun st => by
    rcases List.mem_cons.mp h with rfl | htl
    · apply cfgNodeDels_preserve_conns (fun c => c.from_ ≠ B ∧ c.to_ ≠ B) tl
        (applyNodeDeletionCfg st B)
      intro c hc
      have hmf := List.mem_filter.mp hc
      have hb := hmf.2
      rw [Bool.and_eq_true] at hb
      exact ⟨by simpa using hb.1, by simpa using hb.2⟩
    · exact cfgNodeDels_establish_conns B tl htl (applyNodeDeletionCfg st hd)

/-- The config edge-creations loop preserves any property holding of the
existing connections and of every pushed connection. -/
theorem cfgCreations_preserve (Q : Connection → Prop) :
    ∀ (ces : List CreatedEdge) (ac : List Connection),
      (∀ c ∈ ac, Q c) →
      (∀ ce ∈ ces, Q { from_ := ce.from_, to_ := ce.to_, via := ce.type }) →
      ∀ c ∈ applyEdgeCreationsCfg ac ces, Q c
  | [], _ => fun h _ => h
  | ce :: rest, ac => fun h hce => by
    have hstep : applyEdgeCreationsCfg ac (ce :: rest)
        = applyEdgeCreationsCfg (applyEdgeCreationCfg ac ce) rest := by
      simp [applyEdgeCreationsCfg]
    rw [hstep]
    apply cfgCreations_preserve Q rest _ _ (fun c hc => hce c (List.mem_cons_of_mem _ hc))
    intro c hc
    unfold applyEdgeCreationCfg at hc
    split at hc
    · exact h c hc
    · rcases List.mem_append.mp hc with h1 | h2
      · exact h c h1
      · rw [List.mem_singleton.mp h2]
        exact hce ce (List.mem_cons_self _ _)

/-- The config edge-deletions loop preserves any property of all
connections. -/
theorem cfgEdgeDels_preserve (Q : Connection → Prop) :
    ∀ (ds : List DeletedEdge) (ac : List Connection),
      (∀ c ∈ ac, Q c) → ∀ c ∈ List.foldl applyEdgeDeletionCfg ac ds, Q c
  | [], _ => fun h => h
  | d :: ds, ac => fun h =>
    cfgEdgeDels_preserve Q ds (applyEdgeDeletionCfg ac d)
      (fun c hc => h c (List.mem_of_mem_filter hc))

/-- The `nodeTypes` record of a reconciled path-based configuration is the
state after the node-deletions loop (the display step does not touch it). -/
theorem applyChangesToConfig_nodeTypes (config : PathConfig) (changes : PendingChanges) :
    (applyChangesToConfig config changes).nodeTypes
      = (List.foldl applyNodeDeletionCfg
          (List.foldl applyNodeUpdateCfg
            (List.foldl applyPositionChangeCfg config.nodeTypes changes.positionChanges,
             config.allowedConnections) changes.nodeUpdates)
          changes.deletedNodeIds).1 := by
  unfold applyChangesToConfig
  dsimp only
  split_ifs <;> rfl

/-- The `allowedConnections` of a reconciled path-based configuration is the
state after the edge-deletions loop (the display step does not touch it). -/
theorem applyChangesToConfig_connections (config : PathConfig) (changes : PendingChanges) :
    (applyChangesToConfig config changes).allowedConnections
      = List.foldl applyEdgeDeletionCfg
          (applyEdgeCreationsCfg
            (List.foldl applyNodeDeletionCfg
              (List.foldl applyNodeUpdateCfg
                (List.foldl applyPositionChangeCfg config.nodeTypes changes.positionChanges,
                 config.allowedConnections) changes.nodeUpdates)
              changes.deletedNodeIds).2 changes.createdEdges)
          changes.deletedEdges := by
  unfold applyChangesToConfig
  dsimp only
  split_ifs <;> rfl

/-- `localeCompare a b ≤ 0` exactly when `a ≤ b`. -/
theorem localeCompare_le_iff (a b : String) : localeCompare a b ≤ 0 ↔ a ≤ b := by
  unfold localeCompare
  rcases lt_trichotomy a b with h | h | h
  · rw [if_pos h]
    simp [le_of_lt h]
  · subst h
    rw [if_neg (lt_irrefl a), if_neg (lt_irrefl a)]
    simp
  · rw [if_neg (asymm h), if_pos h]
    simp [not_le.mpr h]

/-- `localeCompare a b = 0` exactly when `a = b`. -/
theorem localeCompare_eq_zero_iff (a b : String) : localeCompare a b = 0 ↔ a = b := by
  unfold localeCompare
  rcases lt_trichotomy a b with h | h | h
  · rw [if_pos h]
    simp [ne_of_lt h]
  · subst h
    rw [if_neg (lt_irrefl a), if_neg (lt_irrefl a)]
    simp
  · rw [if_neg (asymm h), if_pos h]
    simp [(ne_of_lt h).symm]

/-- Characterization of the comparator order: records with a (truthy)
package name come first, grouped by package name and then display name;
records without one are ordered by display name. -/
theorem traceLe_iff (a b : TraceFile) :
    traceLe a b ↔
      (if strTruthy a.packageName = true then
        if strTruthy b.packageName = true then
          optStr a.packageName < optStr b.packageName
            ∨ (optStr a.packageName = optStr b.packageName ∧ a.name ≤ b.name)
        else True
      else if strTruthy b.packageName = true then False
      else a.name ≤ b.name) := by
  unfold traceLe traceCmp
  by_cases ha : strTruthy a.packageName = true <;>
    by_cases hb : strTruthy b.packageName = true
  · rw [if_pos ⟨ha, hb⟩, if_pos ha, if_pos hb]
    by_cases hpe : optStr a.packageName = optStr b.packageName
    · rw [if_neg (by simp [localeCompare_eq_zero_iff, hpe]), localeCompare_le_iff]
      constructor
      · intro hn
        exact Or.inr ⟨hpe, hn⟩
      · rintro (hlt | ⟨-, hn⟩)
        · exact absurd hpe (ne_of_lt hlt)
        · exact hn
    · rw [if_pos (by simpa [localeCompare_eq_zero_iff] using hpe), localeCompare_le_iff]
      constructor
      · intro hle
        exact Or.inl (lt_of_le_of_ne hle hpe)
      · rintro (hlt | ⟨heq, -⟩)
        · exact le_of_lt hlt
        · exact absurd heq hpe
  · rw [if_neg (fun hcon => hb hcon.2), if_pos ha, if_pos ha, if_neg hb]
    simp
  · rw [if_neg (fun hcon => ha hcon.1), if_neg ha, if_pos hb, if_neg ha, if_pos hb]
    simp
  · rw [if_neg (fun hcon => ha hcon.1), if_neg ha, if_neg hb, if_neg ha, if_neg hb,
      localeCompare_le_iff]

/-- The comparator order is total. -/
theorem traceLe_total : ∀ a b : TraceFile, traceLe a b ∨ traceLe b a := by
  intro a b
  rw [traceLe_iff, traceLe_iff]
  split_ifs
  · rcases lt_trichotomy (optStr a.packageName) (optStr b.packageName) with h | h | h
    · exact Or.inl (Or.inl h)
    · rcases le_total a.name b.name with hn | hn
      · exact Or.inl (Or.inr ⟨h, hn⟩)
      · exact Or.inr (Or.inr ⟨h.symm, hn⟩)
    · exact Or.inr (Or.inl h)
  · exact Or.inl trivial
  · exact Or.inr trivial
  · exact le_total a.name b.name

/-- The comparator order is transitive. -/
theorem traceLe_trans : ∀ a b c : TraceFile, traceLe a b → traceLe b c → traceLe a c := by
  intro a b c hab hbc
  rw [traceLe_iff] at hab hbc ⊢
  split_ifs at hab hbc ⊢
  · rcases hab with h1 | ⟨he1, hn1⟩ <;> rcases hbc with h2 | ⟨he2, hn2⟩
    · exact Or.inl (lt_trans h1 h2)
    · exact Or.inl (lt_of_lt_of_le h1 (le_of_eq he2))
    · exact Or.inl (lt_of_le_of_lt (le_of_eq he1) h2)
    · exact Or.inr ⟨he1.trans he2, le_trans hn1 hn2⟩
  · exact le_trans hab hbc

/-- The path of a discovered config record is the file's path. -/
theorem toConfigFile_path (f : FileRec) (c : ConfigFile) (h : toConfigFile f = some c) :
    c.path = filePathOf f := by
  unfold toConfigFile at h
  dsimp only at h
  split at h
  · cases h
    rfl
  · cases h

/-- `findConfigs` keeps matching records in input order: the output paths
form a sublist of the input paths. -/
theorem findConfigs_paths_sublist :
    ∀ files : List FileRec,
      ((findConfigs files).map (fun c => c.path)).Sublist (files.map filePathOf)
  | [] => by simp [findConfigs]
  | f :: fs => by
    show ((List.filterMap toConfigFile (f :: fs)).map (fun c => c.path)).Sublist _
    rw [List.filterMap_cons]
    rcases h : toConfigFile f with _ | c
    · exact List.Sublist.cons _ (findConfigs_paths_sublist fs)
    · rw [List.map_cons, List.map_cons, toConfigFile_path f c h]
      exact List.Sublist.cons₂ _ (findConfigs_paths_sublist fs)

/-! ## Claim theorems -/

/-- Claim C1 (code bug): the spec requires edge deletions to run before edge
creations in both reconcilers, so that a batch deleting and re-creating the
`(a, b, flow)` edge leaves exactly one such edge.  `applyChangesToCanvas`
does so (second conjunct: exactly one surviving edge), but
`applyChangesToConfig` runs creations first — the creation is skipped because
the connection still exists, the deletion then removes it, and zero
connections survive (first conjunct). -/
theorem c1_delete_create_ordering_eval :
    (applyChangesToConfig c1config delCreateChanges).allowedConnections = []
    ∧ countEdgeTriple ((applyChangesToCanvas (fun _ => 5) c1canvas delCreateChanges).edges.getD [])
        "a" "b" "flow" = 1 :=
  ⟨by decide, by decide⟩

/-- Claim C2 (amended): only `applyChangesToConfig` skips a created edge when
an identical `(from, to, via)` connection already exists — the number of
matching connections after its creation loop is the maximum of the previous
count and (at most) one contributed by the whole batch.
`applyChangesToCanvas` performs no duplicate check: every creation entry with
the triple adds one more edge. -/
theorem c2_amended_creation_idempotence :
    (∀ (ac : List Connection) (ces : List CreatedEdge) (f t v : String),
        countConnTriple (applyEdgeCreationsCfg ac ces) f t v
          = max (countConnTriple ac f t v)
              (if ces.any (fun ce => ce.from_ == f && ce.to_ == t && ce.type == v) then 1 else 0))
    ∧ (∀ (now : Nat → Nat) (i : Nat) (edges : Option (List CanvasEdge)) (ces : List CreatedEdge)
        (f t v : String),
        countEdgeTriple ((applyEdgeCreations now i edges ces).getD []) f t v
          = countEdgeTriple (edges.getD []) f t v
            + (ces.filter (fun ce => ce.from_ == f && ce.to_ == t && ce.type == v)).length) :=
  ⟨fun ac ces f t v => countConnTriple_creations f t v ces ac,
   fun now i edges ces f t v => countEdgeTriple_creations f t v now ces i edges⟩

/-- Claim C2 counterexample: the canvas document already contains an
`(a, b, flow)` edge, the batch creates an identical one, and the creation is
not skipped — two matching edges result, refuting the claimed skip for
`applyChangesToCanvas`. -/
theorem c2_counterexample :
    countEdgeTriple (c2canvas.edges.getD []) "a" "b" "flow" = 1
    ∧ countEdgeTriple ((applyChangesToCanvas (fun _ => 5) c2canvas c2changes).edges.getD [])
        "a" "b" "flow" = 2 :=
  ⟨by decide, by decide⟩

/-- Claim C3 (amended): `applyChangesToConfig` sets `display.layout` to
`manual` whenever the batch holds at least one position change, but
`applyChangesToCanvas` never touches the `pv` metadata (hence never sets any
layout field). -/
theorem c3_amended_manual_layout :
    (∀ (config : PathConfig) (changes : PendingChanges), changes.positionChanges ≠ [] →
        (applyChangesToConfig config changes).display = some { layout := some "manual" })
    ∧ (∀ (now : Nat → Nat) (canvas : Canvas) (changes : PendingChanges),
        (applyChangesToCanvas now canvas changes).pv = canvas.pv) := by
  constructor
  · intro config changes h
    have hne : changes.positionChanges.isEmpty = false := by
      cases hpc : changes.positionChanges with
      | nil => exact absurd hpc h
      | cons a l => rfl
    simp [applyChangesToConfig, hne]
  · intro now canvas changes
    rfl

/-- Claim C3 witness: a batch with one position change forces the manual
layout flag on a path-based configuration. -/
theorem c3_amended_manual_layout_witness :
    (applyChangesToConfig
      { nodeTypes := fun _ => none, allowedConnections := [], display := none }
      c3changes).display = some { layout := some "manual" } :=
  c3_amended_manual_layout.1
    { nodeTypes := fun _ => none, allowedConnections := [], display := none }
    c3changes (by decide)

/-- Claim C3 counterexample: `applyChangesToCanvas` applied to a canvas whose
`pv.display.layout` is `auto`, with a batch holding a position change, leaves
the layout at `auto` — not `manual` as claimed. -/
theorem c3_counterexample :
    c3changes.positionChanges ≠ []
    ∧ (((applyChangesToCanvas (fun _ => 5) c3canvas c3changes).pv.bind
        (fun p => p.display)).bind (fun d => d.layout)) = some "auto"
    ∧ ¬ (((applyChangesToCanvas (fun _ => 5) c3canvas c3changes).pv.bind
        (fun p => p.display)).bind (fun d => d.layout)) = some "manual" :=
  ⟨by decide, rfl, by decide⟩

/-- Claim C4: rename propagation — renaming `A` to `A2` (a genuine rename:
`A2` non-empty and different from `A`) in a document with nodes `{A, B}` and
edge `A→B` yields the edge `A2→B`, node ids `{A2, B}` and no reference to `A`
in any edge endpoint; and, in general, the node-update step preserves
referential integrity: if no edge referenced a missing node before, none does
after. -/
theorem c4_rename_propagation (A B A2 : String) (hAB : A ≠ B) (hA2A : A2 ≠ A)
    (hA2e : A2 ≠ "") :
    (((applyChangesToCanvas (fun _ => 5) (c4doc A B) (c4chg A A2)).edges.getD []).map
        (fun e => (e.fromNode, e.toNode)) = [(A2, B)]
      ∧ ((applyChangesToCanvas (fun _ => 5) (c4doc A B) (c4chg A A2)).nodes.getD []).map
          (fun n => n.id) = [A2, B]
      ∧ ∀ e ∈ (applyChangesToCanvas (fun _ => 5) (c4doc A B) (c4chg A A2)).edges.getD [],
          e.fromNode ≠ A ∧ e.toNode ≠ A)
    ∧ (∀ (st : Option (List CanvasNode) × Option (List CanvasEdge)) (us : List NodeUpdate),
        integrity st.1 st.2 →
          integrity (applyNodeUpdates st us).1 (applyNodeUpdates st us).2) := by
  have hren : renameTarget { nodeId := A, updates := { type := some A2, data := none } }
      = some A2 := by
    unfold renameTarget
    dsimp only
    rw [if_pos ⟨hA2e, hA2A⟩]
  have hAA : (A == A) = true := by simp
  have hBA : (B == A) = false := by
    rw [beq_eq_false_iff_ne]
    exact hAB.symm
  have hval : applyChangesToCanvas (fun _ => 5) (c4doc A B) (c4chg A A2)
      = { nodes := some [{ id := A2, x := 0, y := 0, width := 100, height := 100, text := none,
                           pv := none },
                         { id := B, x := 0, y := 0, width := 100, height := 100, text := none,
                           pv := none }],
          edges := some [{ id := "e1", fromNode := A2, toNode := B, fromSide := none,
                           toSide := none, pv := some { edgeType := some "flow" } }],
          pv := none } := by
    simp only [applyChangesToCanvas, c4doc, c4chg, List.foldl_nil, List.foldl_cons,
      applyNodeUpdates, applyNodeDeletions, applyEdgeDeletions, applyEdgeCreations]
    simp [applyNodeUpdate, List.find?, hAA, hren, applyDataUpdate, updateFirst, hBA]
    intro hcon
    exact absurd hcon hAB.symm
  refine ⟨⟨?_, ?_, ?_⟩, fun st us h => integrity_applyNodeUpdates us st h⟩
  · rw [hval]
    rfl
  · rw [hval]
    rfl
  · rw [hval]
    intro e he
    simp only [Option.getD_some, List.mem_singleton] at he
    subst he
    exact ⟨hA2A, hAB.symm⟩

/-- Claim C4 witness: the rename `a → a2` on the concrete two-node document,
and integrity preservation applied to that document's node-update batch. -/
theorem c4_rename_propagation_witness :
    ((applyChangesToCanvas (fun _ => 5) (c4doc "a" "b") (c4chg "a" "a2")).edges.getD []).map
      (fun e => (e.fromNode, e.toNode)) = [("a2", "b")]
    ∧ integrity
        (applyNodeUpdates ((c4doc "a" "b").nodes, (c4doc "a" "b").edges)
          (c4chg "a" "a2").nodeUpdates).1
        (applyNodeUpdates ((c4doc "a" "b").nodes, (c4doc "a" "b").edges)
          (c4chg "a" "a2").nodeUpdates).2 :=
  ⟨(c4_rename_propagation "a" "b" "a2" (by decide) (by decide) (by decide)).1.1,
   (c4_rename_propagation "a" "b" "a2" (by decide) (by decide) (by decide)).2
     ((c4doc "a" "b").nodes, (c4doc "a" "b").edges) (c4chg "a" "a2").nodeUpdates
     (by simp [integrity, nodeIds, c4doc])⟩

/-- Claim C5 (amended): deleting node `B` cascades — provided the batch's
created edges do not themselves reference `B`, the reconciled canvas has no
node with id `B` and no edge touching `B`, and the reconciled path-based
configuration has no `nodeTypes` entry for `B` and no connection touching
`B`.  The claim's particular instance (deleting `B` from `{A, B, C}` with
edges `A→B`, `B→C` leaves nodes `{A, C}` and zero edges) is the last
conjunct. -/
theorem c5_amended_cascade_deletion (now : Nat → Nat) (canvas : Canvas) (config : PathConfig)
    (changes : PendingChanges) (B : String)
    (hB : B ∈ changes.deletedNodeIds)
    (hce : ∀ ce ∈ changes.createdEdges, ce.from_ ≠ B ∧ ce.to_ ≠ B) :
    (∀ n ∈ (applyChangesToCanvas now canvas changes).nodes.getD [], n.id ≠ B)
    ∧ (∀ e ∈ (applyChangesToCanvas now canvas changes).edges.getD [],
        e.fromNode ≠ B ∧ e.toNode ≠ B)
    ∧ (applyChangesToConfig config changes).nodeTypes B = none
    ∧ (∀ c ∈ (applyChangesToConfig config changes).allowedConnections,
        c.from_ ≠ B ∧ c.to_ ≠ B)
    ∧ (((applyChangesToCanvas (fun _ => 5) c5chainCanvas c5delBChanges).nodes.getD []).map
          (fun n => n.id) = ["a", "c"]
        ∧ (applyChangesToCanvas (fun _ => 5) c5chainCanvas c5delBChanges).edges = some []) := by
  have hdel := nodeDels_establish B changes.deletedNodeIds hB
    (applyNodeUpdates
      (changes.dimensionChanges.foldl applyDimensionChange
        (changes.positionChanges.foldl applyPositionChange canvas.nodes), canvas.edges)
      changes.nodeUpdates)
  refine ⟨hdel.1, ?_, ?_, ?_, by decide, by decide⟩
  · intro e he
    have h5 := edgeDels_preserve (fun e => e.fromNode ≠ B ∧ e.toNode ≠ B)
      changes.deletedEdges _ hdel.2
    exact edgeCreations_preserve (fun e => e.fromNode ≠ B ∧ e.toNode ≠ B) now
      changes.createdEdges 0 _ h5
      (fun ce hcem t => ⟨(hce ce hcem).1, (hce ce hcem).2⟩) e he
  · rw [applyChangesToConfig_nodeTypes]
    exact cfgNodeDels_none B changes.deletedNodeIds hB _
  · rw [applyChangesToConfig_connections]
    intro c hc
    have hmid := cfgNodeDels_establish_conns B changes.deletedNodeIds hB
      (List.foldl applyNodeUpdateCfg
        (List.foldl applyPositionChangeCfg config.nodeTypes changes.positionChanges,
         config.allowedConnections) changes.nodeUpdates)
    have hcre := cfgCreations_preserve (fun c => c.from_ ≠ B ∧ c.to_ ≠ B)
      changes.createdEdges _ hmid
      (fun ce hcem => ⟨(hce ce hcem).1, (hce ce hcem).2⟩)
    exact cfgEdgeDels_preserve (fun c => c.from_ ≠ B ∧ c.to_ ≠ B)
      changes.deletedEdges _ hcre c hc

/-- Claim C5 witness: deleting `b` removes the `nodeTypes` entry of `b` from
a concrete path-based configuration that contains it. -/
theorem c5_amended_cascade_deletion_witness :
    (applyChangesToConfig
      { nodeTypes := fun k => if k = "b" then some { position := none, icon := none } else none,
        allowedConnections := [], display := none }
      c5delBChanges).nodeTypes "b" = none :=
  (c5_amended_cascade_deletion (fun _ => 5) c5chainCanvas
    { nodeTypes := fun k => if k = "b" then some { position := none, icon := none } else none,
      allowedConnections := [], display := none }
    c5delBChanges "b" (by decide) (by decide)).2.2.1

/-- Claim C5 counterexample: a batch that deletes node `b` but also creates
an edge pointing at `b` yields a reconciled canvas containing an edge whose
`toNode` is the deleted node — refuting the unconditional claim. -/
theorem c5_counterexample :
    "b" ∈ c5badChanges.deletedNodeIds
    ∧ ((applyChangesToCanvas (fun _ => 5) c5canvas c5badChanges).edges.getD []).map
        (fun e => (e.fromNode, e.toNode)) = [("a", "b")]
    ∧ ((applyChangesToCanvas (fun _ => 5) c5canvas c5badChanges).nodes.getD []).map
        (fun n => n.id) = ["a"] :=
  ⟨by decide, by decide, by decide⟩

/-- Claim C7 (code bug): the generated edge id `edge-${from}-${to}-${Date.now()}`
is not unique.  Two edges created between the same endpoints in the same
batch during the same millisecond (`Date.now()` returning `5` for both calls)
receive the same id, so the reconciled document holds duplicate edge ids. -/
theorem c7_duplicate_edge_id_eval :
    ((applyChangesToCanvas (fun _ => 5) c7canvas c7changes).edges.getD []).map (fun e => e.id)
      = ["edge-a-b-5", "edge-a-b-5"]
    ∧ ¬ List.Nodup (((applyChangesToCanvas (fun _ => 5) c7canvas c7changes).edges.getD []).map
        (fun e => e.id)) :=
  ⟨by decide, by decide⟩

/-- Claim C8 (amended): `findTraceFiles` returns its records sorted by the
comparator — grouped by package name and then display name, with namespaced
(package-carrying) records sorting *before* un-namespaced ones;
`findConfigs` applies no sorting and keeps matches in input order (its output
paths form a sublist of the input paths).  Both are pure functions, so
re-scanning an unchanged list trivially reproduces the same records. -/
theorem c8_amended_discovery_ordering :
    (∀ files : List FileRec, List.Sorted traceLe (findTraceFiles files))
    ∧ (∀ a b : TraceFile, strTruthy a.packageName = true → strTruthy b.packageName = false →
        traceLe a b ∧ ¬ traceLe b a)
    ∧ (∀ files : List FileRec,
        ((findConfigs files).map (fun c => c.path)).Sublist (files.map filePathOf)) := by
  refine ⟨?_, ?_, findConfigs_paths_sublist⟩
  · intro files
    haveI : IsTotal TraceFile traceLe := ⟨traceLe_total⟩
    haveI : IsTrans TraceFile traceLe := ⟨traceLe_trans⟩
    exact List.sorted_insertionSort traceLe _
  · intro a b ha hb
    have hb' : ¬ strTruthy b.packageName = true := by
      simp [hb]
    constructor
    · rw [traceLe_iff, if_pos ha, if_neg hb']
      trivial
    · rw [traceLe_iff, if_neg hb', if_pos ha]
      exact not_false

/-- Claim C8 witness: the ordering facts at two concrete records, one
namespaced and one not. -/
theorem c8_amended_discovery_ordering_witness :
    traceLe { id := "zzz-alpha", name := "Alpha", path := "p", packageName := some "zzz" }
      { id := "beta", name := "Beta", path := "q", packageName := none }
    ∧ ¬ traceLe { id := "beta", name := "Beta", path := "q", packageName := none }
      { id := "zzz-alpha", name := "Alpha", path := "p", packageName := some "zzz" } :=
  c8_amended_discovery_ordering.2.1
    { id := "zzz-alpha", name := "Alpha", path := "p", packageName := some "zzz" }
    { id := "beta", name := "Beta", path := "q", packageName := none }
    (by decide) (by decide)

/-- Claim C8 counterexample: discovery on a file list holding one namespaced
and one un-namespaced trace file puts the namespaced record first — refuting
the claim that un-namespaced entries sort before namespaced ones. -/
theorem c8_counterexample :
    (findTraceFiles c8files).map (fun t => (t.packageName, t.id))
      = [(some "zzz", "zzz-alpha"), (none, "beta")] := by
  decide

/-- Claim C9 (amended): `parseCanvas` and `parseTraceCanvas` fail exactly
when the underlying JSON parse fails, carrying the underlying message behind
a fixed prefix; when the JSON parse succeeds the parsed value is returned
unconditionally — no required-shape validation is performed. -/
theorem c9_amended_parse_contract :
    ∀ (jsonParse : String → Except String Json) (content : String),
      (∀ v, jsonParse content = Except.ok v →
        parseCanvas jsonParse content = Except.ok v
          ∧ parseTraceCanvas jsonParse content = Except.ok v)
      ∧ (∀ msg, jsonParse content = Except.error msg →
        parseCanvas jsonParse content = Except.error ("Failed to parse canvas JSON: " ++ msg)
          ∧ parseTraceCanvas jsonParse content
              = Except.error ("Failed to parse trace canvas JSON: " ++ msg)) := by
  intro jp content
  constructor
  · intro v hv
    constructor <;> simp [parseCanvas, parseTraceCanvas, hv]
  · intro msg hm
    constructor <;> simp [parseCanvas, parseTraceCanvas, hm]

/-- Claim C9 witness: the contract applied to the concrete oracle — success
on `"42"`, prefixed failure on a rejected input. -/
theorem c9_amended_parse_contract_witness :
    parseCanvas jsonParse42 "42" = Except.ok (Json.num 42)
    ∧ parseCanvas jsonParse42 "x"
        = Except.error ("Failed to parse canvas JSON: " ++ "Unexpected token") :=
  ⟨((c9_amended_parse_contract jsonParse42 "42").1 (Json.num 42) rfl).1,
   ((c9_amended_parse_contract jsonParse42 "x").2 "Unexpected token" rfl).1⟩

/-- Claim C9 counterexample: `"42"` is valid JSON with no top-level fields at
all, yet `parseCanvas` succeeds and returns it — refuting the claim that
parsing fails when `metadata`/`nodes`/`edges` are absent. -/
theorem c9_counterexample :
    parseCanvas jsonParse42 "42" = Except.ok (Json.num 42)
    ∧ parseTraceCanvas jsonParse42 "42" = Except.ok (Json.num 42)
    ∧ specRequiredShape (Json.num 42) = false :=
  ⟨rfl, rfl, rfl⟩

/-- Claim C10: side conversion is total and vocabulary-safe — an absent
handle maps to `undefined`; a handle whose `-out`-stripped form is outside
`top|right|bottom|left` maps to `undefined`; a well-formed source handle is
converted; and every creation entry still yields an edge whose sides are the
converted handles, whatever the handles are. -/
theorem c10_handle_side_safety :
    handleToCanvasSide none = none
    ∧ (∀ s : String, stripOutSuffix s ∉ (["top", "right", "bottom", "left"] : List String) →
        handleToCanvasSide (some s) = none)
    ∧ handleToCanvasSide (some "right-out") = some Side.right
    ∧ (∀ (now : Nat → Nat) (canvas : Canvas) (changes : PendingChanges),
        ∀ ce ∈ changes.createdEdges,
          ∃ e ∈ (applyChangesToCanvas now canvas changes).edges.getD [],
            e.fromNode = ce.from_ ∧ e.toNode = ce.to_
              ∧ e.fromSide = handleToCanvasSide ce.sourceHandle
              ∧ e.toSide = handleToCanvasSide ce.targetHandle) := by
  refine ⟨rfl, ?_, by decide, ?_⟩
  · intro s h
    simp only [List.mem_cons, List.mem_singleton, not_or] at h
    obtain ⟨h1, h2, h3, h4, -⟩ := h
    by_cases hs : s = ""
    · simp [handleToCanvasSide, hs]
    · simp [handleToCanvasSide, hs, h1, h2, h3, h4]
  · intro now canvas changes ce hce
    obtain ⟨t, ht⟩ := created_mem_applyEdgeCreations now changes.createdEdges 0 _ ce hce
    exact ⟨mkCreatedEdge t ce, ht, rfl, rfl, rfl, rfl⟩

/-- Claim C10 witness: a creation entry with a suffixed source handle and an
out-of-vocabulary target handle still yields an edge, with `fromSide = right`
and `toSide = undefined`. -/
theorem c10_handle_side_safety_witness :
    handleToCanvasSide (some "diag-out") = none
    ∧ ∃ e ∈ (applyChangesToCanvas (fun _ => 5) c10canvas c10changes).edges.getD [],
        e.fromNode = "a" ∧ e.toNode = "b"
          ∧ e.fromSide = handleToCanvasSide (some "right-out")
          ∧ e.toSide = handleToCanvasSide (some "weird") :=
  ⟨c10_handle_side_safety.2.1 "diag-out" (by decide),
   c10_handle_side_safety.2.2.2 (fun _ => 5) c10canvas c10changes
     { from_ := "a", to_ := "b", type := "flow",
       sourceHandle := some "right-out", targetHandle := some "weird" } (by decide)⟩

end PrincipalView
